import Mathlib

/-!
Verification of the OAuth1.0a client `go.auth` (file `oauth1.go`).

The development shallowly embeds the Signer helper functions
(`requestString`, `authorizationString`, `sign`, `headers`), the flow
steps of `AuthorizeRedirect` and `AuthorizeToken`, and the pending-token
LRU store, and proves the specification claims about them.

Go strings are byte strings; we model a Go string as a Lean `String`
and convert to its UTF-8 byte sequence (`strBytes`) wherever the Go code
operates on bytes, so that percent-encoding and length accounting are
byte-faithful.
-/

set_option maxRecDepth 100000

namespace GoAuth

/-- UTF-8 encoding of a single character, as the list of its bytes.
This mirrors how a Go `string` stores a rune. -/
def utf8Bytes (c : Char) : List Nat :=
  let n := c.toNat
  if n < 0x80 then [n]
  else if n < 0x800 then [0xC0 ||| (n >>> 6), 0x80 ||| (n &&& 0x3F)]
  else if n < 0x10000 then
    [0xE0 ||| (n >>> 12), 0x80 ||| ((n >>> 6) &&& 0x3F), 0x80 ||| (n &&& 0x3F)]
  else
    [0xF0 ||| (n >>> 18), 0x80 ||| ((n >>> 12) &&& 0x3F),
     0x80 ||| ((n >>> 6) &&& 0x3F), 0x80 ||| (n &&& 0x3F)]

/-- The byte sequence underlying a Go string. -/
def strBytes (s : String) : List Nat :=
  s.data.flatMap utf8Bytes

/-- Turn a list of byte values into a `String` (one `Char` per byte).
Used for ASCII output produced by the encoders. -/
def bytesToString (bs : List Nat) : String :=
  String.mk (bs.map Char.ofNat)

/-- The condition under which Go's `url.QueryEscape` leaves a byte as is:
`shouldEscape` returns `false` exactly for alphanumerics and `- _ . ~`. -/
def isUnreservedByte (b : Nat) : Bool :=
  (97 ≤ b && b ≤ 122) || (65 ≤ b && b ≤ 90) || (48 ≤ b && b ≤ 57) ||
  b == 45 || b == 95 || b == 46 || b == 126

/-- Upper-case hexadecimal digit table lookup, `"0123456789ABCDEF"[x]`. -/
def hexDigitChar (n : Nat) : Char :=
  if n < 10 then Char.ofNat (48 + n) else Char.ofNat (55 + (n % 16))

/-- How Go's `url.QueryEscape` renders one byte of the input: unreserved
bytes are copied, a space becomes `+`, every other byte becomes `%XX`. -/
def escapeByte (b : Nat) : List Char :=
  if isUnreservedByte b then [Char.ofNat b]
  else if b == 32 then ['+']
  else ['%', hexDigitChar (b / 16), hexDigitChar (b % 16)]

/-- Go's `url.QueryEscape`, applied byte-wise to the UTF-8 bytes of `s`. -/
def queryEscape (s : String) : String :=
  String.mk ((strBytes s).flatMap escapeByte)

example : queryEscape "http://x" = "http%3A%2F%2Fx" := by decide
example : queryEscape "a b" = "a+b" := by decide
example : queryEscape "&" = "%26" := by decide
example : queryEscape "~-._A9z" = "~-._A9z" := by decide

/-! ### SHA-1, HMAC-SHA1 and base64 (`crypto/sha1`, `crypto/hmac`, `encoding/base64`) -/

/-- Rotate a 32-bit word left by `n` bits. -/
def rotl32 (n x : Nat) : Nat :=
  ((x <<< n) ||| (x >>> (32 - n))) % 4294967296

/-- The SHA-1 round constant for round `i`. -/
def sha1K (i : Nat) : Nat :=
  if i < 20 then 0x5A827999
  else if i < 40 then 0x6ED9EBA1
  else if i < 60 then 0x8F1BBCDC
  else 0xCA62C1D6

/-- The SHA-1 round function for round `i`. -/
def sha1F (i b c d : Nat) : Nat :=
  if i < 20 then (b &&& c) ||| ((b ^^^ 0xFFFFFFFF) &&& d)
  else if i < 40 then b ^^^ c ^^^ d
  else if i < 60 then (b &&& c) ||| (b &&& d) ||| (c &&& d)
  else b ^^^ c ^^^ d

/-- The 8-byte big-endian encoding of a 64-bit length value. -/
def lenBytes64 (n : Nat) : List Nat :=
  [(n >>> 56) % 256, (n >>> 48) % 256, (n >>> 40) % 256, (n >>> 32) % 256,
   (n >>> 24) % 256, (n >>> 16) % 256, (n >>> 8) % 256, n % 256]

/-- SHA-1 message padding: append `0x80`, zeros to 56 mod 64, then the
bit length as 8 big-endian bytes. -/
def sha1Pad (msg : List Nat) : List Nat :=
  msg ++ 128 :: (List.replicate ((119 - msg.length % 64) % 64) 0 ++ lenBytes64 (msg.length * 8))

/-- Group bytes into big-endian 32-bit words. -/
def bytesToWords : List Nat → List Nat
  | a :: b :: c :: d :: rest => (a * 16777216 + b * 65536 + c * 256 + d) :: bytesToWords rest
  | _ => []

/-- Group words into 16-word blocks. -/
def wordsToBlocks : List Nat → List (List Nat)
  | w0 :: w1 :: w2 :: w3 :: w4 :: w5 :: w6 :: w7 ::
    w8 :: w9 :: w10 :: w11 :: w12 :: w13 :: w14 :: w15 :: rest =>
      [w0, w1, w2, w3, w4, w5, w6, w7, w8, w9, w10, w11, w12, w13, w14, w15] ::
        wordsToBlocks rest
  | _ => []

/-- Message-schedule expansion; `acc` holds the words produced so far in
reverse order, `n` counts the words still to produce. -/
def sha1ExpandAux : Nat → List Nat → List Nat
  | 0, acc => acc.reverse
  | n + 1, acc =>
      sha1ExpandAux n
        ((rotl32 1 (acc.getD 2 0 ^^^ acc.getD 7 0 ^^^ acc.getD 13 0 ^^^ acc.getD 15 0)) :: acc)

/-- Expand a 16-word block to the 80-word message schedule. -/
def sha1Expand (block : List Nat) : List Nat :=
  sha1ExpandAux 64 block.reverse

/-- One SHA-1 compression round. -/
def sha1Round (i w : Nat) : Nat × Nat × Nat × Nat × Nat → Nat × Nat × Nat × Nat × Nat
  | (a, b, c, d, e) =>
    ((rotl32 5 a + sha1F i b c d + e + w + sha1K i) % 4294967296,
     a, rotl32 30 b, c, d)

/-- Run the 80 compression rounds over the message schedule. -/
def sha1Rounds : Nat → List Nat → Nat × Nat × Nat × Nat × Nat → Nat × Nat × Nat × Nat × Nat
  | _, [], st => st
  | i, w :: ws, st => sha1Rounds (i + 1) ws (sha1Round i w st)

/-- Process one block and add the result into the running hash state. -/
def sha1Block (h : Nat × Nat × Nat × Nat × Nat) (block : List Nat) :
    Nat × Nat × Nat × Nat × Nat :=
  match h, sha1Rounds 0 (sha1Expand block) h with
  | (h0, h1, h2, h3, h4), (a, b, c, d, e) =>
    ((h0 + a) % 4294967296, (h1 + b) % 4294967296, (h2 + c) % 4294967296,
     (h3 + d) % 4294967296, (h4 + e) % 4294967296)

/-- The 4-byte big-endian encoding of a 32-bit word. -/
def word32Bytes (w : Nat) : List Nat :=
  [(w >>> 24) % 256, (w >>> 16) % 256, (w >>> 8) % 256, w % 256]

/-- SHA-1 of a byte sequence (Go's `crypto/sha1`). -/
def sha1 (msg : List Nat) : List Nat :=
  match (wordsToBlocks (bytesToWords (sha1Pad msg))).foldl sha1Block
      (0x67452301, 0xEFCDAB89, 0x98BADCFE, 0x10325476, 0xC3D2E1F0) with
  | (h0, h1, h2, h3, h4) =>
      word32Bytes h0 ++ word32Bytes h1 ++ word32Bytes h2 ++ word32Bytes h3 ++ word32Bytes h4

/-- HMAC-SHA1 (Go's `crypto/hmac` instantiated with `sha1.New`). -/
def hmacSha1 (key msg : List Nat) : List Nat :=
  let k0 := if 64 < key.length then sha1 key else key
  let kp := k0 ++ List.replicate (64 - k0.length) 0
  sha1 ((kp.map (fun b => b ^^^ 0x5C)) ++ sha1 ((kp.map (fun b => b ^^^ 0x36)) ++ msg))

/-- The standard base64 alphabet (`base64.StdEncoding`). -/
def b64Char (n : Nat) : Char :=
  "ABCDEFGHIJKLMNOPQRSTUVWXYZabcdefghijklmnopqrstuvwxyz0123456789+/".data.getD n 'A'

/-- Standard base64 encoding with `=` padding (`base64.StdEncoding.Encode`). -/
def base64Encode : List Nat → List Char
  | a :: b :: c :: rest =>
      b64Char (a >>> 2) :: b64Char (((a &&& 3) <<< 4) ||| (b >>> 4)) ::
      b64Char (((b &&& 15) <<< 2) ||| (c >>> 6)) :: b64Char (c &&& 63) :: base64Encode rest
  | [a, b] =>
      [b64Char (a >>> 2), b64Char (((a &&& 3) <<< 4) ||| (b >>> 4)),
       b64Char ((b &&& 15) <<< 2), '=']
  | [a] =>
      [b64Char (a >>> 2), b64Char ((a &&& 3) <<< 4), '=', '=']
  | [] => []

/-- `sign` from `oauth1.go`: base64 of the HMAC-SHA1 digest of `message`
under `key`. -/
def sign (message key : String) : String :=
  String.mk (base64Encode (hmacSha1 (strBytes key) (strBytes message)))

example : sha1 [] =
    [0xda, 0x39, 0xa3, 0xee, 0x5e, 0x6b, 0x4b, 0x0d, 0x32, 0x55,
     0xbf, 0xef, 0x95, 0x60, 0x18, 0x90, 0xaf, 0xd8, 0x07, 0x09] := by decide

example : sign "GET&http%3A%2F%2Fexample.com%2F&oauth_nonce%3D1" "secret&" =
    "IUn6g0fmjMkcojmc7LUhuxJQn5Q=" := by decide

/-! ### Key sorting (`sort.StringSlice(keys).Sort()`)

Go compares strings byte-wise; on the UTF-8 representation of valid
Unicode strings the byte-wise order coincides with the code-point
lexicographic order, which we use here. -/

/-- Lexicographic comparison of character lists by code point. -/
def charsLe : List Char → List Char → Bool
  | [], _ => true
  | _ :: _, [] => false
  | a :: as, b :: bs =>
    if a.toNat < b.toNat then true
    else if b.toNat < a.toNat then false
    else charsLe as bs

/-- Go string comparison `s <= t`. -/
def strLe (s t : String) : Bool :=
  charsLe s.data t.data

theorem char_eq_of_toNat_eq {a b : Char} (h : a.toNat = b.toNat) : a = b := by
  have h2 := congrArg Char.ofNat h
  simpa [Char.ofNat_toNat] using h2

theorem charsLe_total : ∀ as bs : List Char, charsLe as bs = true ∨ charsLe bs as = true
  | [], _ => Or.inl rfl
  | _ :: _, [] => Or.inr rfl
  | a :: as, b :: bs => by
    by_cases h1 : a.toNat < b.toNat
    · left; simp [charsLe, h1]
    · by_cases h2 : b.toNat < a.toNat
      · right; simp [charsLe, h1, h2]
      · rcases charsLe_total as bs with h | h
        · left; simp [charsLe, h1, h2, h]
        · right; simp [charsLe, h1, h2, h]

theorem charsLe_trans : ∀ as bs cs : List Char,
    charsLe as bs = true → charsLe bs cs = true → charsLe as cs = true
  | [], _, _, _, _ => rfl
  | _ :: _, [], _, h1, _ => by simp [charsLe] at h1
  | _ :: _, _ :: _, [], _, h2 => by simp [charsLe] at h2
  | a :: as, b :: bs, c :: cs, h1, h2 => by
    simp only [charsLe] at h1 h2 ⊢
    split_ifs at h1 h2 ⊢ <;>
      first
        | rfl
        | omega
        | simp at h1
        | simp at h2
        | exact charsLe_trans as bs cs h1 h2

theorem charsLe_antisymm : ∀ as bs : List Char,
    charsLe as bs = true → charsLe bs as = true → as = bs
  | [], [], _, _ => rfl
  | [], _ :: _, _, h2 => by simp [charsLe] at h2
  | _ :: _, [], h1, _ => by simp [charsLe] at h1
  | a :: as, b :: bs, h1, h2 => by
    simp only [charsLe] at h1 h2
    split_ifs at h1 h2 with g1 g2 <;> try omega
    have hab : a = b := char_eq_of_toNat_eq (by omega)
    rw [hab, charsLe_antisymm as bs h1 h2]

/-- The order used to sort the collected parameter keys. -/
def keyLe (s t : String) : Prop :=
  strLe s t = true

instance : DecidableRel keyLe :=
  fun s t => inferInstanceAs (Decidable (strLe s t = true))

instance : IsTotal String keyLe :=
  ⟨fun s t => charsLe_total s.data t.data⟩

instance : IsTrans String keyLe :=
  ⟨fun s t u => charsLe_trans s.data t.data u.data⟩

instance : IsAntisymm String keyLe :=
  ⟨fun s t h1 h2 => String.ext (charsLe_antisymm s.data t.data h1 h2)⟩

/-- Sorting of the collected parameter keys (`sort.StringSlice(keys).Sort()`). -/
def sortKeys (l : List String) : List String :=
  List.insertionSort keyLe l

example : sortKeys ["oauth_token", "oauth_callback", "a"] = ["a", "oauth_callback", "oauth_token"] := by
  decide

/-! ### `requestString` and `authorizationString` -/

/-- `params[key]` for the Go map modelled as an association list. -/
def lookupD (params : List (String × String)) (k : String) : String :=
  (params.lookup k).getD ""

/-- One `key=value` pair of the base string, its value percent-encoded:
`fmt.Sprintf("%s=%s", key, url.QueryEscape(params[key]))`. -/
def pairStr (params : List (String × String)) (k : String) : String :=
  k ++ "=" ++ queryEscape (lookupD params k)

/-- A `key=value` pair percent-encoded once more, as appended to the
base string. -/
def encPair (params : List (String × String)) (k : String) : String :=
  queryEscape (pairStr params k)

/-- The parameter loop of `requestString` after the first key: each
further pair is preceded by `url.QueryEscape("&")`. -/
def restPairs (params : List (String × String)) : List String → String
  | [] => ""
  | k :: ks => queryEscape "&" ++ encPair params k ++ restPairs params ks

/-- `requestString` from `oauth1.go`: collect the keys, sort them, then
append `method & QueryEscape(uri)` and the doubly-escaped pairs. -/
def requestString (method uri : String) (params : List (String × String)) : String :=
  method ++ "&" ++ queryEscape uri ++
    (match sortKeys (params.map Prod.fst) with
     | [] => ""
     | k :: ks => "&" ++ encPair params k ++ restPairs params ks)

/-- Join a list of strings with ampersand separators. -/
def joinAmp : List String → String
  | [] => ""
  | [x] => x
  | x :: y :: xs => x ++ "&" ++ joinAmp (y :: xs)

/-- Join a list of strings with comma separators. -/
def joinComma : List String → String
  | [] => ""
  | [x] => x
  | x :: y :: xs => x ++ "," ++ joinComma (y :: xs)

/-- One `key="value"` pair of the Authorization header; the value is
inserted verbatim. -/
def authPair (params : List (String × String)) (k : String) : String :=
  k ++ "=\"" ++ lookupD params k ++ "\""

/-- The parameter loop of `authorizationString` after the first key. -/
def restAuthPairs (params : List (String × String)) : List String → String
  | [] => ""
  | k :: ks => "," ++ authPair params k ++ restAuthPairs params ks

/-- `authorizationString` from `oauth1.go`. -/
def authorizationString (params : List (String × String)) : String :=
  "OAuth " ++
    (match sortKeys (params.map Prod.fst) with
     | [] => ""
     | k :: ks => authPair params k ++ restAuthPairs params ks)

example : requestString "GET" "http://x" [("b", "2 2"), ("a", "1")] =
    "GET&http%3A%2F%2Fx&a%3D1%26b%3D2%2B2" := by decide

example : authorizationString [("b", "2"), ("a", "1")] = "OAuth a=\"1\",b=\"2\"" := by decide

/-! ### Structure lemmas for the two serializers -/

theorem strBytes_append (s t : String) :
    strBytes (s ++ t) = strBytes s ++ strBytes t := by
  simp [strBytes, String.data_append, List.flatMap_append]

theorem queryEscape_append (s t : String) :
    queryEscape (s ++ t) = queryEscape s ++ queryEscape t := by
  simp only [queryEscape, strBytes_append, List.flatMap_append]
  rfl

theorem encPair_restPairs (params : List (String × String)) :
    ∀ ks k, encPair params k ++ restPairs params ks =
      queryEscape (joinAmp ((k :: ks).map (pairStr params)))
  | [], k => by
    simp [restPairs, joinAmp, encPair, String.append_empty]
  | k2 :: ks, k => by
    have ih := encPair_restPairs params ks k2
    simp only [List.map_cons] at ih ⊢
    simp only [restPairs, joinAmp, queryEscape_append, ← ih]
    simp [encPair, String.append_assoc]

theorem authPair_restAuthPairs (params : List (String × String)) :
    ∀ ks k, authPair params k ++ restAuthPairs params ks =
      joinComma ((k :: ks).map (authPair params))
  | [], k => by
    simp [restAuthPairs, joinComma, String.append_empty]
  | k2 :: ks, k => by
    have ih := authPair_restAuthPairs params ks k2
    simp only [List.map_cons] at ih ⊢
    simp only [restAuthPairs, joinComma, ← ih]
    simp [String.append_assoc]

theorem perm_lookup {ps qs : List (String × String)} (h : ps.Perm qs)
    (nd : (ps.map Prod.fst).Nodup) (k : String) :
    ps.lookup k = qs.lookup k := by
  induction h with
  | nil => rfl
  | cons p h ih =>
    rcases p with ⟨a, v⟩
    simp only [List.map_cons, List.nodup_cons] at nd
    by_cases hk : k = a
    · simp [List.lookup_cons, hk]
    · simp [List.lookup_cons, beq_iff_eq, hk, ih nd.2]
  | swap x y l =>
    rcases x with ⟨a, va⟩
    rcases y with ⟨b, vb⟩
    simp only [List.map_cons, List.nodup_cons, List.mem_cons] at nd
    have hab : b ≠ a := fun e => nd.1 (Or.inl e)
    have hb1 : (b == a) = false := beq_false_of_ne hab
    have hb2 : (a == b) = false := beq_false_of_ne fun e => hab e.symm
    by_cases hka : k = a
    · subst hka
      simp [List.lookup_cons, hb2, beq_self_eq_true]
    · by_cases hkb : k = b
      · subst hkb
        simp [List.lookup_cons, hb1, beq_self_eq_true]
      · have h1 : (k == a) = false := beq_false_of_ne hka
        have h2 : (k == b) = false := beq_false_of_ne hkb
        simp [List.lookup_cons, h1, h2]
  | trans h1 h2 ih1 ih2 =>
    have nd2 := ((h1.map Prod.fst).nodup_iff).mp nd
    rw [ih1 nd, ih2 nd2]

theorem restPairs_congr {ps qs : List (String × String)}
    (h : ∀ k, lookupD ps k = lookupD qs k) :
    ∀ ks, restPairs ps ks = restPairs qs ks
  | [] => rfl
  | k :: ks => by
    simp [restPairs, encPair, pairStr, h k, restPairs_congr h ks]

theorem restAuthPairs_congr {ps qs : List (String × String)}
    (h : ∀ k, lookupD ps k = lookupD qs k) :
    ∀ ks, restAuthPairs ps ks = restAuthPairs qs ks
  | [] => rfl
  | k :: ks => by
    simp [restAuthPairs, authPair, h k, restAuthPairs_congr h ks]

theorem sortKeys_sorted (l : List String) : List.Sorted keyLe (sortKeys l) :=
  List.sorted_insertionSort keyLe l

theorem sortKeys_perm (l : List String) : (sortKeys l).Perm l :=
  List.perm_insertionSort keyLe l

theorem sortKeys_eq_of_perm {l1 l2 : List String} (h : l1.Perm l2) :
    sortKeys l1 = sortKeys l2 :=
  List.eq_of_perm_of_sorted ((sortKeys_perm l1).trans (h.trans (sortKeys_perm l2).symm))
    (sortKeys_sorted l1) (sortKeys_sorted l2)

/-- C1: for every method, URL and nonempty parameter mapping with unique
keys, `requestString` collects and sorts the keys and returns
`METHOD & enc(URL) & enc(&-joined key=enc(value) pairs)`: each value is
percent-encoded, then each pair and the joining ampersands are
percent-encoded again; the result depends only on the contents of the
mapping, not on its order. -/
theorem requestString_canonical (method uri : String)
    (params params2 : List (String × String))
    (hne : params ≠ [])
    (hnd : (params.map Prod.fst).Nodup)
    (hperm : params.Perm params2) :
    requestString method uri params =
      method ++ "&" ++ queryEscape uri ++ "&" ++
        queryEscape (joinAmp ((sortKeys (params.map Prod.fst)).map (pairStr params))) ∧
    requestString method uri params = requestString method uri params2 := by
  constructor
  · unfold requestString
    rcases hsk : sortKeys (params.map Prod.fst) with _ | ⟨k, ks⟩
    · have h0 : params.map Prod.fst = [] :=
        ((hsk ▸ sortKeys_perm (params.map Prod.fst)).symm).eq_nil
      exact absurd (List.map_eq_nil_iff.mp h0) hne
    · show method ++ "&" ++ queryEscape uri ++ ("&" ++ encPair params k ++ restPairs params ks) =
        method ++ "&" ++ queryEscape uri ++ "&" ++
          queryEscape (joinAmp ((k :: ks).map (pairStr params)))
      rw [← encPair_restPairs params ks k]
      simp [String.append_assoc]
  · have hperm2 : (params.map Prod.fst).Perm (params2.map Prod.fst) := hperm.map _
    have hkeys : sortKeys (params.map Prod.fst) = sortKeys (params2.map Prod.fst) :=
      sortKeys_eq_of_perm hperm2
    have hl : ∀ k, lookupD params k = lookupD params2 k := fun k => by
      simp [lookupD, perm_lookup hperm hnd k]
    unfold requestString
    rw [← hkeys]
    rcases sortKeys (params.map Prod.fst) with _ | ⟨k, ks⟩
    · rfl
    · simp [encPair, pairStr, hl k, restPairs_congr hl ks]

/-- Witness for `requestString_canonical` at a concrete mapping and a
concrete reordering of it. -/
theorem requestString_canonical_witness :
    requestString "GET" "http://x" [("b", "2 2"), ("a", "1")] =
      "GET" ++ "&" ++ queryEscape "http://x" ++ "&" ++
        queryEscape (joinAmp ((sortKeys ([("b", "2 2"), ("a", "1")].map Prod.fst)).map
          (pairStr [("b", "2 2"), ("a", "1")]))) ∧
    requestString "GET" "http://x" [("b", "2 2"), ("a", "1")] =
      requestString "GET" "http://x" [("a", "1"), ("b", "2 2")] :=
  requestString_canonical "GET" "http://x" [("b", "2 2"), ("a", "1")]
    [("a", "1"), ("b", "2 2")] (by decide) (by decide) (by decide)

/-- C1 counterexample: for the empty mapping the code emits no separator
after the escaped URL, while the claimed shape appends `&` plus the
escaped empty join, so the two differ there. -/
theorem requestString_empty_params :
    requestString "GET" "http://x" [] = "GET&http%3A%2F%2Fx" ∧
    "GET" ++ "&" ++ queryEscape "http://x" ++ "&" ++
        queryEscape (joinAmp ((sortKeys (([] : List (String × String)).map Prod.fst)).map
          (pairStr []))) = "GET&http%3A%2F%2Fx&" ∧
    "GET&http%3A%2F%2Fx" ≠ "GET&http%3A%2F%2Fx&" :=
  ⟨by decide, by decide, by decide⟩

/-- C6: the Authorization header serializer emits `OAuth ` followed by
the comma-joined `key="value"` pairs, keys in sorted order (a sorted
permutation of the mapping's keys, hence no trailing comma and values
inserted verbatim), independent of the mapping's order; on the mapping
`{b: 2, a: 1}` it produces exactly `OAuth a="1",b="2"`. -/
theorem authorizationString_spec (params params2 : List (String × String))
    (hnd : (params.map Prod.fst).Nodup) (hperm : params.Perm params2) :
    authorizationString params =
      "OAuth " ++ joinComma ((sortKeys (params.map Prod.fst)).map (authPair params)) ∧
    List.Sorted keyLe (sortKeys (params.map Prod.fst)) ∧
    (sortKeys (params.map Prod.fst)).Perm (params.map Prod.fst) ∧
    authorizationString params = authorizationString params2 ∧
    authorizationString [("b", "2"), ("a", "1")] = "OAuth a=\"1\",b=\"2\"" := by
  refine ⟨?_, sortKeys_sorted _, sortKeys_perm _, ?_, by decide⟩
  · unfold authorizationString
    rcases sortKeys (params.map Prod.fst) with _ | ⟨k, ks⟩
    · rfl
    · simp only [authPair_restAuthPairs params ks k, List.map_cons]
  · have hkeys : sortKeys (params.map Prod.fst) = sortKeys (params2.map Prod.fst) :=
      sortKeys_eq_of_perm (hperm.map _)
    have hl : ∀ k, lookupD params k = lookupD params2 k := fun k => by
      simp [lookupD, perm_lookup hperm hnd k]
    unfold authorizationString
    rw [← hkeys]
    rcases sortKeys (params.map Prod.fst) with _ | ⟨k, ks⟩
    · rfl
    · simp [authPair, hl k, restAuthPairs_congr hl ks]

/-- Witness for `authorizationString_spec` at a concrete mapping and a
concrete reordering of it. -/
theorem authorizationString_spec_witness :
    authorizationString [("b", "2"), ("a", "1")] =
      "OAuth " ++ joinComma ((sortKeys ([("b", "2"), ("a", "1")].map Prod.fst)).map
        (authPair [("b", "2"), ("a", "1")])) ∧
    List.Sorted keyLe (sortKeys ([("b", "2"), ("a", "1")].map Prod.fst)) ∧
    (sortKeys ([("b", "2"), ("a", "1")].map Prod.fst)).Perm
      ([("b", "2"), ("a", "1")].map Prod.fst) ∧
    authorizationString [("b", "2"), ("a", "1")] =
      authorizationString [("a", "1"), ("b", "2")] ∧
    authorizationString [("b", "2"), ("a", "1")] = "OAuth a=\"1\",b=\"2\"" :=
  authorizationString_spec [("b", "2"), ("a", "1")] [("a", "1"), ("b", "2")]
    (by decide) (by decide)

/-- C2: `sign` is the base64 encoding of the raw HMAC-SHA1 digest of the
base string under the key; it is deterministic, and on the fixed base
string `GET&http%3A%2F%2Fexample.com%2F&oauth_nonce%3D1` with the fixed
key `secret&` it reproduces the pinned golden value
`IUn6g0fmjMkcojmc7LUhuxJQn5Q=`. -/
theorem sign_spec :
    (∀ message key : String,
      sign message key =
        String.mk (base64Encode (hmacSha1 (strBytes key) (strBytes message)))) ∧
    (∀ m1 k1 m2 k2 : String, m1 = m2 → k1 = k2 → sign m1 k1 = sign m2 k2) ∧
    sign "GET&http%3A%2F%2Fexample.com%2F&oauth_nonce%3D1" "secret&" =
      "IUn6g0fmjMkcojmc7LUhuxJQn5Q=" :=
  ⟨fun _ _ => rfl, fun _ _ _ _ h1 h2 => h1 ▸ h2 ▸ rfl, by decide⟩

/-- Witness for `sign_spec`: its determinism conjunct applied at concrete
equal inputs. -/
theorem sign_spec_witness :
    sign "GET&a" "k&" = String.mk (base64Encode (hmacSha1 (strBytes "k&") (strBytes "GET&a"))) ∧
    sign "GET&a" "k&" = sign "GET&a" "k&" :=
  ⟨sign_spec.1 "GET&a" "k&", sign_spec.2.1 "GET&a" "k&" "GET&a" "k&" rfl rfl⟩

/-- C4 counterexample: the percent-encoder used by the Signer maps a
space to `+`, it does not percent-escape it. -/
theorem queryEscape_space :
    queryEscape " " = "+" ∧ ("+" : String) ≠ "%20" :=
  ⟨by decide, by decide⟩

/-- C4 amended: the encoder leaves exactly the unreserved bytes (ASCII
letters, digits, `-`, `.`, `_`, `~`) unescaped, maps the space byte to
`+`, and percent-escapes every other byte with two upper-case hex
digits; `queryEscape` applies this byte map to the UTF-8 bytes of its
argument. -/
theorem queryEscape_byte_map (s : String) (b : Nat) (hb : b < 256) :
    (isUnreservedByte b = true ↔
      (48 ≤ b ∧ b ≤ 57) ∨ (65 ≤ b ∧ b ≤ 90) ∨ (97 ≤ b ∧ b ≤ 122) ∨
        b = 45 ∨ b = 46 ∨ b = 95 ∨ b = 126) ∧
    (isUnreservedByte b = true → escapeByte b = [Char.ofNat b]) ∧
    (b = 32 → escapeByte b = ['+']) ∧
    (isUnreservedByte b = false → b ≠ 32 →
      escapeByte b = ['%', hexDigitChar (b / 16), hexDigitChar (b % 16)]) ∧
    queryEscape s = String.mk ((strBytes s).flatMap escapeByte) := by
  refine ⟨?_, ?_, ?_, ?_, rfl⟩
  · simp only [isUnreservedByte, Bool.or_eq_true, Bool.and_eq_true,
      decide_eq_true_eq, beq_iff_eq]
    omega
  · intro h
    simp [escapeByte, h]
  · intro h
    subst h
    simp [escapeByte, isUnreservedByte]
  · intro h1 h2
    simp [escapeByte, h1, beq_false_of_ne h2]

/-- Witness for `queryEscape_byte_map` at the byte `/` and a concrete
string. -/
theorem queryEscape_byte_map_witness :
    (isUnreservedByte 47 = true ↔
      (48 ≤ 47 ∧ 47 ≤ 57) ∨ (65 ≤ 47 ∧ 47 ≤ 90) ∨ (97 ≤ 47 ∧ 47 ≤ 122) ∨
        47 = 45 ∨ 47 = 46 ∨ 47 = 95 ∨ 47 = 126) ∧
    (isUnreservedByte 47 = true → escapeByte 47 = [Char.ofNat 47]) ∧
    ((47 : Nat) = 32 → escapeByte 47 = ['+']) ∧
    (isUnreservedByte 47 = false → (47 : Nat) ≠ 32 →
      escapeByte 47 = ['%', hexDigitChar (47 / 16), hexDigitChar (47 % 16)]) ∧
    queryEscape "a/b" = String.mk ((strBytes "a/b").flatMap escapeByte) :=
  queryEscape_byte_map "a/b" 47 (by decide)

/-! ### `headers` and the nonce (C10) -/

/-- Modelled from the spec: `math/rand`'s `Int63` on a freshly seeded
source, as used in `headers` through
`rand.New(rand.NewSource(time.Now().Unix())).Int63()`. The generator
internals are library code outside this repository; the property the
claims depend on is that the draw is a fixed deterministic function of
the seed, so a Lehmer step stands in for the generator's arithmetic. -/
def goRandInt63 (seed : Int) : Int :=
  (16807 * (seed % 2147483647)) % 2147483647

/-- `headers` from `oauth1.go`: the five mandatory OAuth parameters.
`now` is the single wall-clock reading `time.Now().Unix()` made during
the call, its only call-specific input. -/
def headers (consumerKey : String) (now : Int) : List (String × String) :=
  [("oauth_consumer_key", consumerKey),
   ("oauth_nonce", toString (goRandInt63 now)),
   ("oauth_signature_method", "HMAC-SHA1"),
   ("oauth_timestamp", toString now),
   ("oauth_version", "1.0")]

/-- C10 (divergence): the `oauth_nonce` produced by `headers` is a
deterministic function of the clock second alone, so any two calls made
during the same Unix second — even for different consumers — produce the
same nonce; nonces are not distinct across calls. -/
theorem headers_nonce_collision :
    (∀ (ck1 ck2 : String) (now : Int),
      lookupD (headers ck1 now) "oauth_nonce" = lookupD (headers ck2 now) "oauth_nonce") ∧
    lookupD (headers "consumer-a" 1700000000) "oauth_nonce" =
      lookupD (headers "consumer-b" 1700000000) "oauth_nonce" :=
  ⟨fun _ _ _ => rfl, rfl⟩

/-! ### `url.ParseQuery` -/

/-- Hex digit value of a byte (`ishex`/`unhex` in `net/url`). -/
def unhex (b : Nat) : Option Nat :=
  if 48 ≤ b ∧ b ≤ 57 then some (b - 48)
  else if 97 ≤ b ∧ b ≤ 102 then some (b - 87)
  else if 65 ≤ b ∧ b ≤ 70 then some (b - 55)
  else none

/-- `url.QueryUnescape` on bytes: `%XX` becomes the byte `XX`, `+`
becomes a space, any other byte is copied; a malformed escape is an
error. -/
def queryUnescapeBytes : List Nat → Option (List Nat)
  | [] => some []
  | 37 :: a :: b :: rest =>
    match unhex a, unhex b, queryUnescapeBytes rest with
    | some ha, some hb, some out => some ((16 * ha + hb) :: out)
    | _, _, _ => none
  | 37 :: _ => none
  | 43 :: rest => (queryUnescapeBytes rest).map (fun out => 32 :: out)
  | b :: rest => (queryUnescapeBytes rest).map (fun out => b :: out)

/-- Split a query string's bytes at `&` and `;` (`url.ParseQuery` treats
both as pair separators). -/
def splitSeps : List Nat → List (List Nat)
  | [] => [[]]
  | b :: rest =>
    if b = 38 ∨ b = 59 then [] :: splitSeps rest
    else
      match splitSeps rest with
      | [] => [[b]]
      | seg :: segs => (b :: seg) :: segs

/-- Split one `key=value` segment at the first `=`; with no `=` the
value is empty. -/
def splitEq : List Nat → List Nat × List Nat
  | [] => ([], [])
  | 61 :: rest => ([], rest)
  | b :: rest =>
    match splitEq rest with
    | (k, v) => (b :: k, v)

/-- Decode one nonempty segment into an unescaped `(key, value)` pair. -/
def segPair (seg : List Nat) : Option (String × String) :=
  match splitEq seg with
  | (k, v) =>
    match queryUnescapeBytes k, queryUnescapeBytes v with
    | some kb, some vb => some (bytesToString kb, bytesToString vb)
    | _, _ => none

/-- Decode the split segments, skipping empty ones; any unescape failure
makes the whole parse an error, as the flow code treats `ParseQuery`'s
non-nil error as fatal. -/
def parseSegs : List (List Nat) → Option (List (String × String))
  | [] => some []
  | seg :: segs =>
    if seg.isEmpty then parseSegs segs
    else
      match segPair seg, parseSegs segs with
      | some p, some ps => some (p :: ps)
      | _, _ => none

/-- `url.ParseQuery` applied to a response body or query string; the
resulting pair list keeps encounter order, and `lookupD` on it behaves
like `url.Values.Get` (first value or empty). -/
def parseQuery (body : String) : Option (List (String × String)) :=
  parseSegs (splitSeps (strBytes body))

example : parseQuery "oauth_token=abc123&oauth_token_secret=shh" =
    some [("oauth_token", "abc123"), ("oauth_token_secret", "shh")] := by decide
example : parseQuery "a=b" = some [("a", "b")] := by decide
example : parseQuery "a=%zz" = none := by decide

/-! ### The Pending-Token Store -/

/-- Modelled from the spec: the Pending-Token Store behind `tokenCache`.
The vitess `cache.LRUCache` implementation is an external library, not
part of this repository, so the store is modelled as the spec describes
it: a capacity-bounded association list kept in use order (front =
least recently used, back = most recently used), each entry accounted
with the byte cost `len(token) + len(secret)`. -/
structure LRUCache where
  entries : List (String × String)
  capacity : Nat
deriving DecidableEq

/-- The accounted byte cost of one stored entry. -/
def entrySize (kv : String × String) : Nat :=
  (strBytes kv.1).length + (strBytes kv.2).length

/-- The total accounted size of a list of entries. -/
def totalSize (l : List (String × String)) : Nat :=
  (l.map entrySize).sum

/-- Evict least-recently-used entries (the front of the list) until the
total accounted size fits the capacity; a single oversized entry is
itself evicted. -/
def evictLRU (cap : Nat) : List (String × String) → List (String × String)
  | [] => []
  | e :: rest =>
    if totalSize (e :: rest) ≤ cap then e :: rest else evictLRU cap rest

/-- Remove the entry with the given key, if present. -/
def removeKey (l : List (String × String)) (k : String) : List (String × String) :=
  l.filter (fun e => !(e.1 == k))

/-- `Set`: insert or replace the entry as most recently used, then evict
until within capacity. -/
def lruPut (c : LRUCache) (k v : String) : LRUCache :=
  ⟨evictLRU c.capacity (removeKey c.entries k ++ [(k, v)]), c.capacity⟩

/-- `Get`: look the key up; a hit touches the entry, making it the most
recently used. -/
def lruGet (c : LRUCache) (k : String) : Option String × LRUCache :=
  match c.entries.lookup k with
  | none => (none, c)
  | some v => (some v, ⟨removeKey c.entries k ++ [(k, v)], c.capacity⟩)

/-- `tokenCache`, created by `cache.NewLRUCache(1048576)`: the initially
empty store with the default 1 MiB capacity. -/
def tokenCache : LRUCache :=
  ⟨[], 1048576⟩

/-! ### The flow steps of `AuthorizeRedirect` and `AuthorizeToken` -/

/-- The failure cases of `AuthorizeRedirect`: a transport error from
`http.DefaultClient.Do` or the body read, a `url.ParseQuery` error, or
a body without both token fields (`errors.New(string(body))`). -/
inductive RedirectErr where
  | transport (e : String)
  | parse
  | missingToken (body : String)
deriving DecidableEq

/-- A comparison of parameter pairs by key, for `url.Values.Encode`. -/
def pairKeyLe (a b : String × String) : Prop :=
  keyLe a.1 b.1

instance : DecidableRel pairKeyLe :=
  fun a b => inferInstanceAs (Decidable (strLe a.1 b.1 = true))

/-- `url.Values.Encode`: keys sorted, each pair written
`QueryEscape(k)=QueryEscape(v)`, joined with `&`. The multi-map built by
`AuthorizeRedirect` has one value per key, so a pair list suffices. -/
def encodeValues (ps : List (String × String)) : String :=
  joinAmp ((List.insertionSort pairKeyLe ps).map
    (fun kv => queryEscape kv.1 ++ "=" ++ queryEscape kv.2))

/-- The response-handling part of `AuthorizeRedirect` (`oauth1.go`
lines 107-151): the signed request-token call's outcome arrives as
`resp` (transport error or body); the body is parsed, both token fields
are required, the secret is cached under the token, and the redirect
URL is the endpoint with the caller's parameters plus `oauth_token`
as its encoded query. On any failure the cache is left untouched. -/
def authorizeRedirect (cache : LRUCache) (resp : Except String String)
    (endpoint : String) (params : Option (List (String × String))) :
    LRUCache × Except RedirectErr String :=
  match resp with
  | .error e => (cache, .error (.transport e))
  | .ok body =>
    match parseQuery body with
    | none => (cache, .error .parse)
    | some parts =>
      if (lookupD parts "oauth_token").length = 0 ∨
          (lookupD parts "oauth_token_secret").length = 0 then
        (cache, .error (.missingToken body))
      else
        (lruPut cache (lookupD parts "oauth_token") (lookupD parts "oauth_token_secret"),
          .ok (endpoint ++ "?" ++
            encodeValues (params.getD [] ++ [("oauth_token", lookupD parts "oauth_token")])))

/-- The possible outcomes of `AuthorizeToken`. `panicked` stands for the
nil-interface type assertion `cachedSecretToken.(tokenCacheItem)` the
code runs when the cache lookup missed: the `//TODO` branch falls
through with a nil value, so the assertion cannot succeed. -/
inductive TokenResult where
  | panicked
  | transport (e : String)
  | parseFailed
  | ok (token secret : String)
deriving DecidableEq

/-- `AuthorizeToken` from `oauth1.go`, from the callback query
parameters to the returned pair: the request token is looked up in the
cache, the signed access-token request's outcome arrives as `resp`, the
body is parsed, and whatever `oauth_token` and `oauth_token_secret` the
parts hold are returned with a nil error — there is no emptiness check. -/
def authorizeToken (cache : LRUCache) (queryParams : List (String × String))
    (resp : Except String String) : LRUCache × TokenResult :=
  match lruGet cache (lookupD queryParams "oauth_token") with
  | (none, c2) => (c2, .panicked)
  | (some _, c2) =>
    match resp with
    | .error e => (c2, .transport e)
    | .ok body =>
      match parseQuery body with
      | none => (c2, .parseFailed)
      | some parts =>
        (c2, .ok (lookupD parts "oauth_token") (lookupD parts "oauth_token_secret"))

/-! ### Store and flow theorems -/

theorem str_len_zero {s : String} (h : s.length = 0) : s = "" := by
  cases s with
  | mk l =>
    cases l with
    | nil => rfl
    | cons c cs => simp [String.length] at h

theorem totalSize_evictLRU (cap : Nat) : ∀ l, totalSize (evictLRU cap l) ≤ cap
  | [] => by simp [evictLRU, totalSize]
  | e :: rest => by
    by_cases h : totalSize (e :: rest) ≤ cap
    · simp [evictLRU, h]
    · simpa [evictLRU, h] using totalSize_evictLRU cap rest

theorem evictLRU_suffix (cap : Nat) : ∀ l, (evictLRU cap l).IsSuffix l
  | [] => List.suffix_refl []
  | e :: rest => by
    by_cases h : totalSize (e :: rest) ≤ cap
    · simp only [evictLRU, if_pos h]
      exact List.suffix_refl _
    · simp only [evictLRU, if_neg h]
      exact (evictLRU_suffix cap rest).trans (List.suffix_cons e rest)

theorem mem_evictLRU_append (cap : Nat) (k v : String) :
    ∀ l, entrySize (k, v) ≤ cap → (k, v) ∈ evictLRU cap (l ++ [(k, v)])
  | [], h => by
    have hs : totalSize [(k, v)] ≤ cap := by simpa [totalSize] using h
    simp [evictLRU, hs]
  | e :: l, h => by
    by_cases hc : totalSize (e :: (l ++ [(k, v)])) ≤ cap
    · simp [List.cons_append, evictLRU, hc]
    · simpa [List.cons_append, evictLRU, hc] using mem_evictLRU_append cap k v l h

/-- C9 (spec-modelled store): every stored entry is accounted with byte
cost `len(token) + len(secret)`; after any insertion the total accounted
size of the store is at most its capacity, entries having been evicted
from the least-recently-used end first (the survivors are a suffix of
the pre-eviction order); `tokenCache` is created with the default
capacity of 1048576 bytes. -/
theorem lruPut_capacity (c : LRUCache) (k v : String) :
    entrySize (k, v) = (strBytes k).length + (strBytes v).length ∧
    totalSize (lruPut c k v).entries ≤ c.capacity ∧
    (lruPut c k v).entries.IsSuffix (removeKey c.entries k ++ [(k, v)]) ∧
    tokenCache.capacity = 1048576 :=
  ⟨rfl, totalSize_evictLRU _ _, evictLRU_suffix _ _, rfl⟩

/-- C7: when the provider's request-token response parses and carries
nonempty `oauth_token` and `oauth_token_secret` values, `AuthorizeRedirect`
stores the secret under the token in the Pending-Token Store and
succeeds with the endpoint's URL carrying `oauth_token` among its
encoded query parameters; an entry that fits the capacity is then
really present in the store. -/
theorem authorizeRedirect_success (cache : LRUCache) (body endpoint : String)
    (params : Option (List (String × String))) (parts : List (String × String))
    (tok sec : String)
    (hp : parseQuery body = some parts)
    (htok : lookupD parts "oauth_token" = tok)
    (hsec : lookupD parts "oauth_token_secret" = sec)
    (htne : tok ≠ "") (hsne : sec ≠ "") :
    authorizeRedirect cache (.ok body) endpoint params =
      (lruPut cache tok sec,
        .ok (endpoint ++ "?" ++
          encodeValues (params.getD [] ++ [("oauth_token", tok)]))) ∧
    ("oauth_token", tok) ∈ params.getD [] ++ [("oauth_token", tok)] ∧
    (entrySize (tok, sec) ≤ cache.capacity → (tok, sec) ∈ (lruPut cache tok sec).entries) := by
  refine ⟨?_, by simp, fun h => mem_evictLRU_append _ _ _ _ h⟩
  have hz : ¬(tok.length = 0 ∨ sec.length = 0) := by
    rintro (h | h)
    · exact htne (str_len_zero h)
    · exact hsne (str_len_zero h)
  simp only [authorizeRedirect, hp, htok, hsec]
  rw [if_neg hz]

/-- Witness for `authorizeRedirect_success` on the spec's end-to-end
scenario: the fake provider body `oauth_token=abc123&oauth_token_secret=shh`
against the empty default store. -/
theorem authorizeRedirect_success_witness :
    authorizeRedirect tokenCache (.ok "oauth_token=abc123&oauth_token_secret=shh")
        "http://p/authorize" none =
      (lruPut tokenCache "abc123" "shh",
        .ok ("http://p/authorize" ++ "?" ++
          encodeValues ((none : Option (List (String × String))).getD [] ++
            [("oauth_token", "abc123")]))) ∧
    ("abc123", "shh") ∈ (lruPut tokenCache "abc123" "shh").entries :=
  ⟨(authorizeRedirect_success tokenCache "oauth_token=abc123&oauth_token_secret=shh"
      "http://p/authorize" none [("oauth_token", "abc123"), ("oauth_token_secret", "shh")]
      "abc123" "shh" (by decide) (by decide) (by decide) (by decide) (by decide)).1,
   (authorizeRedirect_success tokenCache "oauth_token=abc123&oauth_token_secret=shh"
      "http://p/authorize" none [("oauth_token", "abc123"), ("oauth_token_secret", "shh")]
      "abc123" "shh" (by decide) (by decide) (by decide) (by decide) (by decide)).2.2
     (by decide)⟩

/-- C8: every failing outcome of `AuthorizeRedirect` — transport error,
unparsable body, or a body missing either token field — returns an
error, and any error outcome leaves the Pending-Token Store exactly as
it was, so the flow is safe to retry. -/
theorem authorizeRedirect_failure (cache : LRUCache) (resp : Except String String)
    (endpoint : String) (params : Option (List (String × String))) :
    (∀ e, resp = .error e →
      authorizeRedirect cache resp endpoint params = (cache, .error (.transport e))) ∧
    (∀ body, resp = .ok body → parseQuery body = none →
      authorizeRedirect cache resp endpoint params = (cache, .error .parse)) ∧
    (∀ body parts, resp = .ok body → parseQuery body = some parts →
      ((lookupD parts "oauth_token").length = 0 ∨
        (lookupD parts "oauth_token_secret").length = 0) →
      authorizeRedirect cache resp endpoint params = (cache, .error (.missingToken body))) ∧
    (∀ err, (authorizeRedirect cache resp endpoint params).2 = .error err →
      (authorizeRedirect cache resp endpoint params).1 = cache) := by
  refine ⟨?_, ?_, ?_, ?_⟩
  · rintro e rfl
    rfl
  · rintro body rfl hp
    simp [authorizeRedirect, hp]
  · rintro body parts rfl hp hz
    simp only [authorizeRedirect, hp]
    rw [if_pos hz]
  · intro err
    cases resp with
    | error e => intro _; rfl
    | ok body =>
      cases hp : parseQuery body with
      | none =>
        intro _
        simp [authorizeRedirect, hp]
      | some parts =>
        by_cases hc : (lookupD parts "oauth_token").length = 0 ∨
            (lookupD parts "oauth_token_secret").length = 0
        · intro _
          simp only [authorizeRedirect, hp]
          rw [if_pos hc]
        · intro hcontra
          exfalso
          simp only [authorizeRedirect, hp, if_neg hc] at hcontra
          exact Except.noConfusion hcontra

/-- Witness for `authorizeRedirect_failure`: a transport failure and a
body without token fields, both leaving the default store unchanged. -/
theorem authorizeRedirect_failure_witness :
    authorizeRedirect tokenCache (.error "net down") "http://p" none =
      (tokenCache, .error (.transport "net down")) ∧
    authorizeRedirect tokenCache (.ok "a=b") "http://p" none =
      (tokenCache, .error (.missingToken "a=b")) :=
  ⟨(authorizeRedirect_failure tokenCache (.error "net down") "http://p" none).1
      "net down" rfl,
   (authorizeRedirect_failure tokenCache (.ok "a=b") "http://p" none).2.2.1
      "a=b" [("a", "b")] rfl (by decide) (Or.inl (by decide))⟩

/-- C3 (divergence): on a callback whose `oauth_token` is not in the
Pending-Token Store, `AuthorizeToken` does not fail with an
`UnknownTokenError`: the miss falls through the `//TODO` branch into the
nil-interface type assertion `cachedSecretToken.(tokenCacheItem)`,
modelled as `TokenResult.panicked`, before any signing happens. -/
theorem authorizeToken_unknown_token (cache : LRUCache)
    (queryParams : List (String × String)) (resp : Except String String)
    (hmiss : cache.entries.lookup (lookupD queryParams "oauth_token") = none) :
    authorizeToken cache queryParams resp = (cache, .panicked) := by
  simp [authorizeToken, lruGet, hmiss]

/-- Witness for `authorizeToken_unknown_token`: a forged token against
the empty default store. -/
theorem authorizeToken_unknown_token_witness :
    authorizeToken tokenCache [("oauth_token", "forged"), ("oauth_verifier", "v")]
        (.ok "oauth_token=t&oauth_token_secret=s") = (tokenCache, .panicked) :=
  authorizeToken_unknown_token tokenCache
    [("oauth_token", "forged"), ("oauth_verifier", "v")]
    (.ok "oauth_token=t&oauth_token_secret=s") (by decide)

/-- C5 counterexample: with the secret for token `t` cached, the parsed
access-token response `a=b` carries neither `oauth_token` nor
`oauth_token_secret`, yet `AuthorizeToken` returns success with two
empty strings instead of a provider error. -/
theorem authorizeToken_empty_success :
    authorizeToken (lruPut tokenCache "t" "s")
        [("oauth_token", "t"), ("oauth_verifier", "v")] (.ok "a=b") =
      (lruPut tokenCache "t" "s", .ok "" "") := by
  decide

/-- C5 amended: whenever the cache lookup hits and the response body
parses, `AuthorizeToken` returns the parsed `oauth_token` and
`oauth_token_secret` under a nil error, even when they are empty or
absent; only a transport error or an unparsable body yield errors. -/
theorem authorizeToken_returns_parsed (cache : LRUCache)
    (queryParams : List (String × String)) (body : String)
    (parts : List (String × String)) (sec : String)
    (hget : (lruGet cache (lookupD queryParams "oauth_token")).1 = some sec)
    (hp : parseQuery body = some parts) :
    (authorizeToken cache queryParams (.ok body)).2 =
      .ok (lookupD parts "oauth_token") (lookupD parts "oauth_token_secret") := by
  rcases hg : lruGet cache (lookupD queryParams "oauth_token") with ⟨o, c2⟩
  rw [hg] at hget
  simp only at hget
  subst hget
  simp [authorizeToken, hg, hp]

/-- Witness for `authorizeToken_returns_parsed` at a concrete store,
callback and body. -/
theorem authorizeToken_returns_parsed_witness :
    (authorizeToken (lruPut tokenCache "t" "s")
        [("oauth_token", "t"), ("oauth_verifier", "v")] (.ok "a=b")).2 =
      .ok (lookupD [("a", "b")] "oauth_token") (lookupD [("a", "b")] "oauth_token_secret") :=
  authorizeToken_returns_parsed (lruPut tokenCache "t" "s")
    [("oauth_token", "t"), ("oauth_verifier", "v")] "a=b" [("a", "b")] "s"
    (by decide) (by decide)

end GoAuth
